import Mathlib

/-!
Shallow embedding of `scripts/marketplace.py`: the schema model, the
name-policy checker, the frontmatter extractor, the plugin structural
validator and the discovery/diff/sync engine, together with theorems
settling the specification claims about them.

Filesystem reads are modelled by passing the file contents (or `none` for a
missing file) explicitly; `yaml.safe_load` is modelled as an abstract
function into a `Yaml` value (a YAML parse error would propagate as an
exception in the source and is outside the claims considered here).
Python strings are modelled as `String`, Python `sorted` on strings as
insertion sort by `≤` (both orders are lexicographic by code point).
-/

namespace Marketplace

/-- Contiguous-substring test on character lists: models Python `pat in s`. -/
def listContainsSub (pat : List Char) : List Char → Bool
  | [] => pat.isEmpty
  | c :: tl => pat.isPrefixOf (c :: tl) || listContainsSub pat tl

/-- Python `needle in haystack` on strings. -/
def strContains (haystack needle : String) : Bool :=
  listContainsSub needle.toList haystack.toList

/-- `RESERVED_MARKETPLACE_NAMES` from the source (a frozenset; modelled as a
list used only through membership). -/
def RESERVED_MARKETPLACE_NAMES : List String :=
  ["claude-code-marketplace", "claude-code-plugins", "claude-plugins-official",
   "anthropic-marketplace", "anthropic-plugins", "agent-skills", "life-sciences"]

/-- `_PLUGIN_RELATED_WORDS` from the source. The source iterates a frozenset;
the iteration order is not fixed there, so only which word is reported (not
whether one is) depends on this list's order. -/
def _PLUGIN_RELATED_WORDS : List String :=
  ["plugin", "plugins", "marketplace", "tools", "extensions"]

/-- The violation messages the validators emit. Each constructor stands for
one distinct f-string format of the source; its arguments are the values
interpolated into that message. -/
inductive Violation where
  | manifestNotFound
  | reservedName (name : String)
  | impersonation (name word : String) (pluginWord : Option String)
  | missingPluginJson (plugin : String)
  | invalidPluginJson (plugin : String)
  | pluginNameMismatch (plugin declared : String)
  | missingReadme (plugin : String)
  | noComponent (plugin : String)
  | noMdFilesInCommands (plugin : String)
  | missingFrontmatter (plugin location file : String)
  | frontmatterMissingField (plugin location file field : String)
  | missingSkillMd (plugin subdir : String)
  | hooksJsonMissing (plugin : String)
  | mcpInvalidJson (plugin : String)
  | mcpTopLevelNotObject (plugin : String)
  | mcpServerNotObject (plugin key : String)
  | lspInvalidJson (plugin : String)
  | lspTopLevelNotObject (plugin : String)
  | lspServerNotObject (plugin key : String)
  | lspMissingField (plugin key field : String)
  | sourcePathMissing (entry source : String)
  | duplicatePluginName (name : String) (count : Nat)
  | undiscoveredPlugin (name : String)
  | cliFinding (finding : String)
  deriving DecidableEq, Repr

/-- `validate_marketplace_name` (lines 248-315): reserved-name membership,
then the `anthropic`, `official` and `claude`-with-plugin-word substring
checks, each branch returning at once. -/
def validate_marketplace_name (name : String) : List Violation :=
  if RESERVED_MARKETPLACE_NAMES.contains name then
    [Violation.reservedName name]
  else if strContains name "anthropic" then
    [Violation.impersonation name "anthropic" none]
  else if strContains name "official" then
    [Violation.impersonation name "official" none]
  else if strContains name "claude" then
    match _PLUGIN_RELATED_WORDS.find? (fun w => strContains name w) with
    | some w => [Violation.impersonation name "claude" (some w)]
    | none => []
  else []

/-- Python `sorted` on a list of strings. -/
def sortStrings (l : List String) : List String :=
  l.insertionSort (fun a b => a ≤ b)

/-- The diff step of `sync` (lines 786-790): set difference of the two name
sets, each returned sorted. Python's sets are modelled by `dedup`. -/
def sync_diff (manifestNames discoveredNames : List String) :
    List String × List String :=
  (sortStrings ((discoveredNames.filter (fun n => !manifestNames.contains n)).dedup),
   sortStrings ((manifestNames.filter (fun n => !discoveredNames.contains n)).dedup))

/-- One entry of the plugins root directory as `discover_plugins` sees it:
its name, whether it is a directory, and whether
`.claude-plugin/plugin.json` exists beneath it. -/
structure DirEntry where
  name : String
  isDir : Bool
  hasPluginJson : Bool
  deriving DecidableEq, Repr

/-- `discover_plugins` (lines 318-332): `none` models a missing plugins
root. Sorting paths that share the parent directory orders them by name. -/
def discover_plugins (pluginsDir : Option (List DirEntry)) : List String :=
  match pluginsDir with
  | none => []
  | some entries =>
    sortStrings ((entries.filter (fun e => e.isDir && e.hasPluginJson)).map
      (fun e => e.name))

/-- Parsed JSON values (`json.loads` output). Objects keep key order, as
Python dicts do. -/
inductive Json where
  | null
  | bool (b : Bool)
  | num (n : Int)
  | str (s : String)
  | arr (elems : List Json)
  | obj (fields : List (String × Json))

/-- Python `isinstance(v, dict)`. -/
def Json.isObj : Json → Bool
  | Json.obj _ => true
  | _ => false

/-- `_validate_mcp_json` (lines 415-467), after the file read: `none` models
text that is not valid JSON. -/
def _validate_mcp_json (plugin : String) (parsed : Option Json) : List Violation :=
  match parsed with
  | none => [Violation.mcpInvalidJson plugin]
  | some (Json.obj kvs) =>
    kvs.filterMap (fun kv =>
      if kv.2.isObj then none else some (Violation.mcpServerNotObject plugin kv.1))
  | some _ => [Violation.mcpTopLevelNotObject plugin]

/-- `_validate_lsp_json` (lines 470-534), after the file read. -/
def _validate_lsp_json (plugin : String) (parsed : Option Json) : List Violation :=
  match parsed with
  | none => [Violation.lspInvalidJson plugin]
  | some (Json.obj kvs) =>
    kvs.flatMap (fun kv =>
      match kv.2 with
      | Json.obj fields =>
        (["command", "extensionToLanguage"].filter
          (fun f => !(fields.any (fun kv2 => kv2.1 == f)))).map
          (fun f => Violation.lspMissingField plugin kv.1 f)
      | _ => [Violation.lspServerNotObject plugin kv.1])
  | some _ => [Violation.lspTopLevelNotObject plugin]

/-! ## Frontmatter extractor -/

/-- YAML values as `yaml.safe_load` returns them. Only the mapping
constructor is inspected by the source. -/
inductive Yaml where
  | null
  | bool (b : Bool)
  | num (n : Int)
  | str (s : String)
  | seq (elems : List Yaml)
  | map (entries : List (String × Yaml))

/-- Python `isinstance(v, dict)` on a YAML value. -/
def Yaml.isMap : Yaml → Bool
  | Yaml.map _ => true
  | _ => false

/-- The three-character frontmatter delimiter. -/
def THREE_DASHES : List Char := ['-', '-', '-']

/-- Index of the first occurrence of `pat` as a contiguous sublist. -/
def findSubIdx (pat : List Char) : List Char → Option Nat
  | [] => if pat.isEmpty then some 0 else none
  | c :: tl =>
    if pat.isPrefixOf (c :: tl) then some 0 else (findSubIdx pat tl).map (· + 1)

/-- Python `s.find(pat, start)`, as an `Option` instead of `-1`. -/
def findFrom (s pat : List Char) (start : Nat) : Option Nat :=
  (findSubIdx pat (s.drop start)).map (· + start)

/-- Python `str.strip()`: whitespace removed from both ends. -/
def pyStrip (l : List Char) : List Char :=
  ((l.dropWhile Char.isWhitespace).reverse.dropWhile Char.isWhitespace).reverse

/-- `parse_frontmatter` (lines 335-373) applied to the file's text.
`safeLoad` models `yaml.safe_load`. -/
def parse_frontmatter (safeLoad : String → Yaml) (text : String) :
    Option (List (String × Yaml)) :=
  let chars := text.toList
  if !THREE_DASHES.isPrefixOf chars then none
  else
    match findFrom chars THREE_DASHES 3 with
    | none => none
    | some e =>
      let fm := String.mk (pyStrip ((chars.drop 3).take (e - 3)))
      match safeLoad fm with
      | Yaml.map entries => some entries
      | _ => none

/-- The stripped text between the two delimiters, when both are present:
the string handed to `yaml.safe_load` by `parse_frontmatter`. -/
def frontmatterRegion (text : String) : Option String :=
  let chars := text.toList
  if !THREE_DASHES.isPrefixOf chars then none
  else (findFrom chars THREE_DASHES 3).map
    (fun e => String.mk (pyStrip ((chars.drop 3).take (e - 3))))

/-! ## Plugin structural validator -/

/-- One plugin directory as `validate_plugin_dir` reads it. File reads are
replaced by the file contents; `none` on an outer `Option` means the file or
directory does not exist. In `pluginJson`, `mcpJson` and `lspJson`, the
inner `none` means the file exists but its text is not valid JSON.
`commands` and `agents` hold the `*.md` files (name, text); `skills` holds
the immediate subdirectories (name, `SKILL.md` text if it exists); `hooks`
tells whether `hooks.json` exists inside `hooks/`. -/
structure PluginDirM where
  dirName : String
  pluginJson : Option (Option Json)
  hasReadme : Bool
  commands : Option (List (String × String))
  agents : Option (List (String × String))
  skills : Option (List (String × Option String))
  hooks : Option Bool
  mcpJson : Option (Option Json)
  lspJson : Option (Option Json)

/-- Python `sorted` on directory listings: order by name. -/
def sortByName {α : Type} (l : List (String × α)) : List (String × α) :=
  l.insertionSort (fun a b => a.1 ≤ b.1)

/-- The body of the `for md_file in md_files` loop of `validate_plugin_dir`
(lines 590-597): one document's violations. Python `"description" not in fm`
is a key test on the frontmatter mapping. -/
def commandFileErrors (safeLoad : String → Yaml) (plugin : String)
    (f : String × String) : List Violation :=
  match parse_frontmatter safeLoad f.2 with
  | none => [Violation.missingFrontmatter plugin "commands" f.1]
  | some fm =>
    if fm.any (fun kv => kv.1 == "description") then []
    else [Violation.frontmatterMissingField plugin "commands" f.1 "description"]

/-- The `commands/*.md` block of `validate_plugin_dir` (lines 584-597). -/
def validateCommandsBlock (safeLoad : String → Yaml) (plugin : String)
    (mdFiles : List (String × String)) : List Violation :=
  let files := sortByName mdFiles
  (if files.isEmpty then [Violation.noMdFilesInCommands plugin] else []) ++
  files.flatMap (commandFileErrors safeLoad plugin)

/-- `_validate_agents_dir` (lines 376-389). -/
def _validate_agents_dir (safeLoad : String → Yaml) (plugin : String)
    (mdFiles : List (String × String)) : List Violation :=
  (sortByName mdFiles).flatMap (fun f =>
    match parse_frontmatter safeLoad f.2 with
    | none => [Violation.missingFrontmatter plugin "agents" f.1]
    | some fm =>
      (["name", "description"].filter
        (fun field => !(fm.any (fun kv => kv.1 == field)))).map
        (fun field => Violation.frontmatterMissingField plugin "agents" f.1 field))

/-- `_validate_skills_dir` (lines 392-412). -/
def _validate_skills_dir (safeLoad : String → Yaml) (plugin : String)
    (subdirs : List (String × Option String)) : List Violation :=
  (sortByName subdirs).flatMap (fun sd =>
    match sd.2 with
    | none => [Violation.missingSkillMd plugin sd.1]
    | some content =>
      match parse_frontmatter safeLoad content with
      | none => [Violation.missingFrontmatter plugin "skills" sd.1]
      | some fm =>
        (["name", "description"].filter
          (fun field => !(fm.any (fun kv => kv.1 == field)))).map
          (fun field => Violation.frontmatterMissingField plugin "skills" sd.1 field))

/-! ## Schema model (the pydantic classes) and `model_validate` -/

/-- `Author`: `name` required, `email` and `url` optional. -/
structure Author where
  name : String
  email : Option String
  url : Option String
  deriving DecidableEq, Repr

/-- The `Category` literal type (alphabetical, as in the source). -/
inductive Category where
  | database | deployment | design | development | learning
  | monitoring | productivity | security | testing
  deriving DecidableEq, Repr

/-- `PluginEntry`: a plugin entry of the marketplace manifest. -/
structure PluginEntry where
  name : String
  description : String
  version : String
  author : Author
  source : String
  category : Category
  tags : Option (List String)
  homepage : Option String
  repository : Option String
  license : Option String
  keywords : Option (List String)
  strict : Option Bool
  deriving DecidableEq, Repr

/-- `MarketplaceMetadata`: required `description`. -/
structure MarketplaceMetadata where
  description : String
  deriving DecidableEq, Repr

/-- `MarketplaceManifest`: the top-level manifest schema. `metadata` is a
required field of the pydantic model. -/
structure MarketplaceManifest where
  name : String
  description : String
  metadata : MarketplaceMetadata
  owner : Author
  plugins : List PluginEntry
  deriving DecidableEq, Repr

/-- `PluginJson`: the per-plugin package descriptor schema. -/
structure PluginJson where
  name : String
  description : String
  author : Option Author
  version : Option String
  homepage : Option String
  repository : Option String
  license : Option String
  keywords : Option (List String)
  deriving DecidableEq, Repr

/-- A required `str` field: pydantic accepts only a JSON string there. -/
def parseStrField (kvs : List (String × Json)) (key : String) : Option String :=
  match kvs.lookup key with
  | some (Json.str s) => some s
  | _ => none

/-- A `str | None = None` field value: string or null. -/
def jsonToOptStr : Json → Option (Option String)
  | Json.null => some none
  | Json.str s => some (some s)
  | _ => none

/-- An optional `str | None = None` field: absent or null give `None`. -/
def parseOptStrField (kvs : List (String × Json)) (key : String) :
    Option (Option String) :=
  match kvs.lookup key with
  | none => some none
  | some j => jsonToOptStr j

/-- Every element a string, or fail. -/
def allStrings : List Json → Option (List String)
  | [] => some []
  | Json.str s :: rest => (allStrings rest).map (fun l => s :: l)
  | _ => none

/-- A `list[str] | None = None` field value. -/
def jsonToOptListStr : Json → Option (Option (List String))
  | Json.null => some none
  | Json.arr xs =>
    match allStrings xs with
    | some l => some (some l)
    | none => none
  | _ => none

/-- An optional `list[str] | None = None` field. -/
def parseOptListStrField (kvs : List (String × Json)) (key : String) :
    Option (Option (List String)) :=
  match kvs.lookup key with
  | none => some none
  | some j => jsonToOptListStr j

/-- A `bool | None = None` field value. -/
def jsonToOptBool : Json → Option (Option Bool)
  | Json.null => some none
  | Json.bool b => some (some b)
  | _ => none

/-- An optional `bool | None = None` field. -/
def parseOptBoolField (kvs : List (String × Json)) (key : String) :
    Option (Option Bool) :=
  match kvs.lookup key with
  | none => some none
  | some j => jsonToOptBool j

/-- `Author.model_validate`. -/
def parseAuthor : Json → Option Author
  | Json.obj kvs =>
    (parseStrField kvs "name").bind fun name =>
    (parseOptStrField kvs "email").bind fun email =>
    (parseOptStrField kvs "url").bind fun url =>
    some { name := name, email := email, url := url }
  | _ => none

/-- The nine category literals. -/
def parseCategory : Json → Option Category
  | Json.str "database" => some Category.database
  | Json.str "deployment" => some Category.deployment
  | Json.str "design" => some Category.design
  | Json.str "development" => some Category.development
  | Json.str "learning" => some Category.learning
  | Json.str "monitoring" => some Category.monitoring
  | Json.str "productivity" => some Category.productivity
  | Json.str "security" => some Category.security
  | Json.str "testing" => some Category.testing
  | _ => none

/-- `PluginJson.model_validate`. -/
def parsePluginJson : Json → Option PluginJson
  | Json.obj kvs =>
    (parseStrField kvs "name").bind fun name =>
    (parseStrField kvs "description").bind fun description =>
    (match kvs.lookup "author" with
     | none => some none
     | some Json.null => some none
     | some j => (parseAuthor j).map some).bind fun author =>
    (parseOptStrField kvs "version").bind fun version =>
    (parseOptStrField kvs "homepage").bind fun homepage =>
    (parseOptStrField kvs "repository").bind fun repository =>
    (parseOptStrField kvs "license").bind fun license =>
    (parseOptListStrField kvs "keywords").bind fun keywords =>
    some { name := name, description := description, author := author,
           version := version, homepage := homepage, repository := repository,
           license := license, keywords := keywords }
  | _ => none

/-- `PluginEntry.model_validate`. -/
def parsePluginEntry : Json → Option PluginEntry
  | Json.obj kvs =>
    (parseStrField kvs "name").bind fun name =>
    (parseStrField kvs "description").bind fun description =>
    (parseStrField kvs "version").bind fun version =>
    (match kvs.lookup "author" with
     | some j => parseAuthor j
     | none => none).bind fun author =>
    (parseStrField kvs "source").bind fun source =>
    (match kvs.lookup "category" with
     | some j => parseCategory j
     | none => none).bind fun category =>
    (parseOptListStrField kvs "tags").bind fun tags =>
    (parseOptStrField kvs "homepage").bind fun homepage =>
    (parseOptStrField kvs "repository").bind fun repository =>
    (parseOptStrField kvs "license").bind fun license =>
    (parseOptListStrField kvs "keywords").bind fun keywords =>
    (parseOptBoolField kvs "strict").bind fun strict =>
    some { name := name, description := description, version := version,
           author := author, source := source, category := category,
           tags := tags, homepage := homepage, repository := repository,
           license := license, keywords := keywords, strict := strict }
  | _ => none

/-- `MarketplaceMetadata.model_validate`. -/
def parseMarketplaceMetadata : Json → Option MarketplaceMetadata
  | Json.obj kvs => (parseStrField kvs "description").map
      (fun d => { description := d })
  | _ => none

/-- `list[PluginEntry]` validation: every element must validate. -/
def parseEntries : List Json → Option (List PluginEntry)
  | [] => some []
  | j :: rest =>
    (parsePluginEntry j).bind fun e =>
    (parseEntries rest).bind fun es =>
    some (e :: es)

/-- `MarketplaceManifest.model_validate`: `name`, `description`, `metadata`,
`owner` and `plugins` are all required. -/
def parseMarketplaceManifest : Json → Option MarketplaceManifest
  | Json.obj kvs =>
    (parseStrField kvs "name").bind fun name =>
    (parseStrField kvs "description").bind fun description =>
    (match kvs.lookup "metadata" with
     | some j => parseMarketplaceMetadata j
     | none => none).bind fun metadata =>
    (match kvs.lookup "owner" with
     | some j => parseAuthor j
     | none => none).bind fun owner =>
    (match kvs.lookup "plugins" with
     | some (Json.arr xs) => parseEntries xs
     | _ => none).bind fun plugins =>
    some { name := name, description := description, metadata := metadata,
           owner := owner, plugins := plugins }
  | _ => none

/-- The `plugin.json` block of `validate_plugin_dir` (lines 553-568):
missing file, unparseable or schema-invalid file, or a declared name that
differs from the directory name. -/
def pluginJsonBlock (name : String) (file : Option (Option Json)) :
    List Violation :=
  match file with
  | none => [Violation.missingPluginJson name]
  | some none => [Violation.invalidPluginJson name]
  | some (some j) =>
    match parsePluginJson j with
    | none => [Violation.invalidPluginJson name]
    | some pj =>
      if pj.name != name then [Violation.pluginNameMismatch name pj.name] else []

/-- The component-presence check of `validate_plugin_dir` (lines 574-582). -/
def componentBlock (name : String) (d : PluginDirM) : List Violation :=
  if d.commands.isNone && d.agents.isNone && d.skills.isNone &&
      d.hooks.isNone && d.mcpJson.isNone && d.lspJson.isNone then
    [Violation.noComponent name]
  else []

/-- `validate_plugin_dir` (lines 537-625): every block is evaluated and the
violations accumulate in source order. -/
def validate_plugin_dir (safeLoad : String → Yaml) (d : PluginDirM) :
    List Violation :=
  let name := d.dirName
  pluginJsonBlock name d.pluginJson
  ++ (if d.hasReadme then [] else [Violation.missingReadme name])
  ++ componentBlock name d
  ++ (match d.commands with
      | none => []
      | some files => validateCommandsBlock safeLoad name files)
  ++ (match d.agents with
      | none => []
      | some files => _validate_agents_dir safeLoad name files)
  ++ (match d.skills with
      | none => []
      | some sds => _validate_skills_dir safeLoad name sds)
  ++ (match d.hooks with
      | none => []
      | some hasHooksJson =>
        if hasHooksJson then [] else [Violation.hooksJsonMissing name])
  ++ (match d.mcpJson with
      | none => []
      | some parsed => _validate_mcp_json name parsed)
  ++ (match d.lspJson with
      | none => []
      | some parsed => _validate_lsp_json name parsed)

/-! ## Serialization (`model_dump(mode="json")` and the schema stamp) -/

/-- An optional string serializes as the string or `null`. -/
def jsonOfOptStr : Option String → Json
  | none => Json.null
  | some s => Json.str s

/-- An optional string list serializes as an array of strings or `null`. -/
def jsonOfOptListStr : Option (List String) → Json
  | none => Json.null
  | some l => Json.arr (l.map Json.str)

/-- An optional bool serializes as the bool or `null`. -/
def jsonOfOptBool : Option Bool → Json
  | none => Json.null
  | some b => Json.bool b

/-- The category literal's string. -/
def Category.toStr : Category → String
  | Category.database => "database"
  | Category.deployment => "deployment"
  | Category.design => "design"
  | Category.development => "development"
  | Category.learning => "learning"
  | Category.monitoring => "monitoring"
  | Category.productivity => "productivity"
  | Category.security => "security"
  | Category.testing => "testing"

/-- `Author.model_dump(mode="json")`: fields in declaration order, `None`
dumped as `null`. -/
def dumpAuthor (a : Author) : Json :=
  Json.obj [("name", Json.str a.name), ("email", jsonOfOptStr a.email),
            ("url", jsonOfOptStr a.url)]

/-- `PluginEntry.model_dump(mode="json")`. -/
def dumpPluginEntry (e : PluginEntry) : Json :=
  Json.obj [("name", Json.str e.name), ("description", Json.str e.description),
            ("version", Json.str e.version), ("author", dumpAuthor e.author),
            ("source", Json.str e.source), ("category", Json.str e.category.toStr),
            ("tags", jsonOfOptListStr e.tags),
            ("homepage", jsonOfOptStr e.homepage),
            ("repository", jsonOfOptStr e.repository),
            ("license", jsonOfOptStr e.license),
            ("keywords", jsonOfOptListStr e.keywords),
            ("strict", jsonOfOptBool e.strict)]

/-- `MarketplaceManifest.model_dump(mode="json")`. -/
def dumpMarketplaceManifest (m : MarketplaceManifest) : Json :=
  Json.obj [("name", Json.str m.name), ("description", Json.str m.description),
            ("metadata", Json.obj [("description", Json.str m.metadata.description)]),
            ("owner", dumpAuthor m.owner),
            ("plugins", Json.arr (m.plugins.map dumpPluginEntry))]

/-- Python dict assignment `d[key] = v`: replace in place when the key is
present, append otherwise. -/
def setKey (kvs : List (String × Json)) (key : String) (v : Json) :
    List (String × Json) :=
  if kvs.any (fun kv => kv.1 == key) then
    kvs.map (fun kv => if kv.1 == key then (kv.1, v) else kv)
  else kvs ++ [(key, v)]

/-- The schema identifier stamped on every write. -/
def SCHEMA_URL : String := "https://anthropic.com/claude-code/marketplace.schema.json"

/-- `raw_out["$schema"] = ...` before the write (line 848). -/
def stampSchema : Json → Json
  | Json.obj kvs => Json.obj (setKey kvs "$schema" (Json.str SCHEMA_URL))
  | j => j

/-- Key lookup on a JSON object. -/
def jsonLookup (j : Json) (key : String) : Option Json :=
  match j with
  | Json.obj kvs => kvs.lookup key
  | _ => none

/-! ## Discovery and sync engine -/

/-- Python `x or default` on an optional string: `None` and the empty string
are both falsy. -/
def pyOrStr (v : Option String) (dflt : String) : String :=
  match v with
  | none => dflt
  | some s => if s = "" then dflt else s

/-- The manifest entry `sync --write` synthesizes for one addition (lines
828-835): the entry name and description come from the descriptor, the
version defaults to `"1.0.0"`, the author to the manifest owner, the source
to `./plugins/<directory name>`, the category to `development`. -/
def newEntryFor (owner : Author) (dirName : String) (pj : PluginJson) :
    PluginEntry :=
  { name := pj.name
    description := pj.description
    version := pyOrStr pj.version "1.0.0"
    author := pj.author.getD owner
    source := "./plugins/" ++ dirName
    category := Category.development
    tags := none, homepage := none, repository := none,
    license := none, keywords := none, strict := none }

/-- The in-memory mutation of `sync --write` (lines 819-844): append one
synthesized entry per addition, then filter out the removals. `getPJ` gives
each addition's parsed package descriptor. -/
def applySync (m : MarketplaceManifest) (getPJ : String → PluginJson)
    (additions removals : List String) : MarketplaceManifest :=
  let afterAdd :=
    { m with plugins :=
        m.plugins ++ additions.map (fun n => newEntryFor m.owner n (getPJ n)) }
  { afterAdd with plugins :=
      afterAdd.plugins.filter (fun e => !removals.contains e.name) }

/-- What one invocation of the `sync` command does after loading the
manifest and discovering plugins. `wrote` carries the manifest whose
stamped serialization replaces the file; no other outcome writes. -/
inductive SyncOutcome where
  | inSync
  | checkFailed (additions removals : List String)
  | reportOnly (additions removals : List String)
  | wrote (newManifest : MarketplaceManifest)
  deriving Repr

/-- The `sync` command (lines 758-851) after its two loads: diff, then the
early returns in source order (`in sync`, `--check` failure, no `--write`),
then the write. -/
def sync (write check : Bool) (m : MarketplaceManifest)
    (discoveredNames : List String) (getPJ : String → PluginJson) : SyncOutcome :=
  let ar := sync_diff (m.plugins.map (fun e => e.name)) discoveredNames
  if ar.1.isEmpty && ar.2.isEmpty then SyncOutcome.inSync
  else if check then SyncOutcome.checkFailed ar.1 ar.2
  else if !write then SyncOutcome.reportOnly ar.1 ar.2
  else SyncOutcome.wrote (applySync m getPJ ar.1 ar.2)

/-! ## The lint pass -/

/-- The duplicate-name check of `lint` (lines 710-717): names seen more than
once, reported in sorted order with their counts. -/
def duplicateNameErrors (names : List String) : List Violation :=
  (sortStrings names.dedup).filterMap (fun n =>
    if 1 < names.count n then some (Violation.duplicatePluginName n (names.count n))
    else none)

/-- The `lint` command (lines 681-755) as a function of what it reads.

`manifestFile`: `none` when the manifest file is missing (the `SystemExit`
from `load_marketplace`, the one exception `lint` catches); `some none`
when the file exists but its text is not valid JSON; `some (some j)` when
it parses to `j`. `sourceExists` models the existence check on each
entry's source path, `discovered` the plugin directories `discover_plugins`
returns (in discovery order), and `cli` the (errors, warnings) pair
`_lint_claude_validate` returns — that external check runs outside the
`manifest is not None` guard, so it runs on every path that reaches it.

The result is `none` when the command dies on an uncaught exception
(`json.JSONDecodeError` or `pydantic.ValidationError` from
`load_marketplace`), and otherwise the accumulated (errors, warnings). -/
def lint (manifestFile : Option (Option Json)) (sourceExists : String → Bool)
    (safeLoad : String → Yaml) (discovered : List PluginDirM)
    (cli : List Violation × List Violation) :
    Option (List Violation × List Violation) :=
  match manifestFile with
  | none => some ([Violation.manifestNotFound] ++ cli.1, cli.2)
  | some none => none
  | some (some j) =>
    match parseMarketplaceManifest j with
    | none => none
    | some manifest =>
      let nameErrors := validate_marketplace_name manifest.name
      let sourceErrors := manifest.plugins.filterMap (fun e =>
        if sourceExists e.source then none
        else some (Violation.sourcePathMissing e.name e.source))
      let dupErrors := duplicateNameErrors (manifest.plugins.map (fun e => e.name))
      let dirErrors := discovered.flatMap (fun d => validate_plugin_dir safeLoad d)
      let manifestNames := manifest.plugins.map (fun e => e.name)
      let undiscovered := sortStrings
        (((discovered.map (fun d => d.dirName)).filter
          (fun n => !manifestNames.contains n)).dedup)
      some (nameErrors ++ sourceErrors ++ dupErrors ++ dirErrors ++ cli.1,
            undiscovered.map Violation.undiscoveredPlugin ++ cli.2)

/-! ## Helper lemmas: serialization round trip -/

theorem jsonToOptStr_of (o : Option String) : jsonToOptStr (jsonOfOptStr o) = some o := by
  cases o <;> rfl

theorem allStrings_map (l : List String) : allStrings (l.map Json.str) = some l := by
  induction l with
  | nil => rfl
  | cons h t ih => simp [allStrings, ih]

theorem jsonToOptListStr_of (o : Option (List String)) :
    jsonToOptListStr (jsonOfOptListStr o) = some o := by
  cases o with
  | none => rfl
  | some l => simp [jsonToOptListStr, jsonOfOptListStr, allStrings_map]

theorem jsonToOptBool_of (o : Option Bool) : jsonToOptBool (jsonOfOptBool o) = some o := by
  cases o <;> rfl

theorem parseAuthor_dumpAuthor (a : Author) : parseAuthor (dumpAuthor a) = some a := by
  obtain ⟨n, e, u⟩ := a
  cases e <;> cases u <;> rfl

theorem parseCategory_toStr (c : Category) : parseCategory (Json.str c.toStr) = some c := by
  cases c <;> rfl

theorem parsePluginEntry_dump (e : PluginEntry) :
    parsePluginEntry (dumpPluginEntry e) = some e := by
  obtain ⟨n, d, v, a, s, c, tg, hp, rp, lc, kw, st⟩ := e
  simp [parsePluginEntry, dumpPluginEntry, parseStrField, parseOptStrField,
        parseOptListStrField, parseOptBoolField, List.lookup,
        parseAuthor_dumpAuthor, parseCategory_toStr, jsonToOptStr_of,
        jsonToOptListStr_of, jsonToOptBool_of]

theorem parseEntries_map_dump (l : List PluginEntry) :
    parseEntries (l.map dumpPluginEntry) = some l := by
  induction l with
  | nil => rfl
  | cons h t ih => simp [parseEntries, parsePluginEntry_dump, ih]

theorem parseManifest_dump (m : MarketplaceManifest) :
    parseMarketplaceManifest (dumpMarketplaceManifest m) = some m := by
  obtain ⟨n, d, md, ow, pl⟩ := m
  simp [parseMarketplaceManifest, dumpMarketplaceManifest, parseStrField,
        List.lookup, parseMarketplaceMetadata, parseAuthor_dumpAuthor,
        parseEntries_map_dump]

theorem parseManifest_stamp_dump (m : MarketplaceManifest) :
    parseMarketplaceManifest (stampSchema (dumpMarketplaceManifest m)) = some m := by
  obtain ⟨n, d, md, ow, pl⟩ := m
  simp [parseMarketplaceManifest, dumpMarketplaceManifest, stampSchema, setKey,
        parseStrField, List.lookup, parseMarketplaceMetadata,
        parseAuthor_dumpAuthor, parseEntries_map_dump]

theorem jsonLookup_stamp_dump (m : MarketplaceManifest) :
    jsonLookup (stampSchema (dumpMarketplaceManifest m)) "$schema"
      = some (Json.str SCHEMA_URL) := by
  simp [jsonLookup, stampSchema, dumpMarketplaceManifest, setKey, List.lookup]

/-! ## Helper lemmas: sorting and the diff -/

theorem sortStrings_sorted (l : List String) :
    (sortStrings l).Sorted (fun a b => a ≤ b) :=
  List.sorted_insertionSort _ l

theorem mem_sortStrings (l : List String) (x : String) : x ∈ sortStrings l ↔ x ∈ l :=
  List.mem_insertionSort _

theorem sortStrings_eq_nil (l : List String) : sortStrings l = [] ↔ l = [] := by
  constructor
  · intro h
    have hp := List.perm_insertionSort (fun a b : String => a ≤ b) l
    unfold sortStrings at h
    rw [h] at hp
    exact hp.symm.eq_nil
  · intro h; subst h; rfl

theorem mem_sync_diff_fst (m d : List String) (n : String) :
    n ∈ (sync_diff m d).1 ↔ n ∈ d ∧ n ∉ m := by
  simp [sync_diff, mem_sortStrings, List.mem_dedup, List.mem_filter]

theorem mem_sync_diff_snd (m d : List String) (n : String) :
    n ∈ (sync_diff m d).2 ↔ n ∈ m ∧ n ∉ d := by
  simp [sync_diff, mem_sortStrings, List.mem_dedup, List.mem_filter]

theorem sync_diff_empty_iff (m d : List String) :
    ((sync_diff m d).1 = [] ∧ (sync_diff m d).2 = []) ↔ (∀ n, n ∈ m ↔ n ∈ d) := by
  rw [List.eq_nil_iff_forall_not_mem, List.eq_nil_iff_forall_not_mem]
  constructor
  · rintro ⟨h1, h2⟩ n
    constructor
    · intro hm
      by_contra hd
      exact h2 n ((mem_sync_diff_snd m d n).mpr ⟨hm, hd⟩)
    · intro hd
      by_contra hm
      exact h1 n ((mem_sync_diff_fst m d n).mpr ⟨hd, hm⟩)
  · intro h
    constructor
    · intro n hn
      rw [mem_sync_diff_fst] at hn
      exact hn.2 ((h n).mpr hn.1)
    · intro n hn
      rw [mem_sync_diff_snd] at hn
      exact hn.2 ((h n).mp hn.1)

/-! ## Helper lemmas: the name policy -/

theorem vmn_len (name : String) : (validate_marketplace_name name).length ≤ 1 := by
  unfold validate_marketplace_name
  repeat' split
  all_goals simp

theorem vmn_reserved (name : String)
    (h : RESERVED_MARKETPLACE_NAMES.contains name = true) :
    validate_marketplace_name name = [Violation.reservedName name] := by
  have h2 : name ∈ RESERVED_MARKETPLACE_NAMES := by simpa using h
  simp [validate_marketplace_name, h2]

theorem vmn_anthropic (name : String)
    (h0 : RESERVED_MARKETPLACE_NAMES.contains name = false)
    (h1 : strContains name "anthropic" = true) :
    validate_marketplace_name name = [Violation.impersonation name "anthropic" none] := by
  have h0m : name ∉ RESERVED_MARKETPLACE_NAMES := by simpa using h0
  simp [validate_marketplace_name, h0m, h1]

theorem vmn_official (name : String)
    (h0 : RESERVED_MARKETPLACE_NAMES.contains name = false)
    (h1 : strContains name "anthropic" = false)
    (h2 : strContains name "official" = true) :
    validate_marketplace_name name = [Violation.impersonation name "official" none] := by
  have h0m : name ∉ RESERVED_MARKETPLACE_NAMES := by simpa using h0
  simp [validate_marketplace_name, h0m, h1, h2]

theorem vmn_claude (name : String)
    (h0 : RESERVED_MARKETPLACE_NAMES.contains name = false)
    (h1 : strContains name "anthropic" = false)
    (h2 : strContains name "official" = false)
    (h3 : strContains name "claude" = true) :
    validate_marketplace_name name =
      match _PLUGIN_RELATED_WORDS.find? (fun w => strContains name w) with
      | some w => [Violation.impersonation name "claude" (some w)]
      | none => [] := by
  have h0m : name ∉ RESERVED_MARKETPLACE_NAMES := by simpa using h0
  simp [validate_marketplace_name, h0m, h1, h2, h3]

/-! ## Helper lemmas: the commands block of the validator -/

theorem mem_commandFileErrors (sl : String → Yaml) (p : String) (f : String × String)
    (v : Violation) (hv : v ∈ commandFileErrors sl p f) :
    v = Violation.missingFrontmatter p "commands" f.1 ∨
    v = Violation.frontmatterMissingField p "commands" f.1 "description" := by
  cases h : parse_frontmatter sl f.2 with
  | none =>
    simp only [commandFileErrors, h, List.mem_singleton] at hv
    exact Or.inl hv
  | some fm =>
    simp only [commandFileErrors, h] at hv
    split at hv
    · cases hv
    · simp only [List.mem_singleton] at hv
      exact Or.inr hv

theorem eq_of_fst_eq_of_nodup {α : Type} (l : List (String × α))
    (hnd : (l.map Prod.fst).Nodup) (a b : String × α)
    (ha : a ∈ l) (hb : b ∈ l) (hfst : a.1 = b.1) : a = b := by
  induction l with
  | nil => cases ha
  | cons h tl ih =>
    rw [List.map_cons, List.nodup_cons] at hnd
    obtain ⟨hni, hnd2⟩ := hnd
    rcases List.mem_cons.mp ha with rfl | ha2
    · rcases List.mem_cons.mp hb with rfl | hb2
      · rfl
      · have hx : b.1 ∈ tl.map Prod.fst := List.mem_map_of_mem Prod.fst hb2
        rw [← hfst] at hx
        exact absurd hx hni
    · rcases List.mem_cons.mp hb with rfl | hb2
      · have hx : a.1 ∈ tl.map Prod.fst := List.mem_map_of_mem Prod.fst ha2
        rw [hfst] at hx
        exact absurd hx hni
      · exact ih hnd2 ha2 hb2

theorem count_commandFiles (sl : String → Yaml) (p fn content : String)
    (l : List (String × String)) (hnd : (l.map Prod.fst).Nodup)
    (hmem : (fn, content) ∈ l)
    (hparse : parse_frontmatter sl content = none) :
    (l.flatMap (commandFileErrors sl p)).count
      (Violation.missingFrontmatter p "commands" fn) = 1 := by
  induction l with
  | nil => cases hmem
  | cons f tl ih =>
    rw [List.map_cons, List.nodup_cons] at hnd
    obtain ⟨hni, hnd2⟩ := hnd
    rw [List.flatMap_cons, List.count_append]
    rcases List.mem_cons.mp hmem with heq | htl
    · subst heq
      have h1 : (commandFileErrors sl p (fn, content)).count
          (Violation.missingFrontmatter p "commands" fn) = 1 := by
        simp [commandFileErrors, hparse]
      have h2 : (tl.flatMap (commandFileErrors sl p)).count
          (Violation.missingFrontmatter p "commands" fn) = 0 := by
        rw [List.count_eq_zero]
        intro hmemf
        rcases List.mem_flatMap.mp hmemf with ⟨g, hg, hvg⟩
        rcases mem_commandFileErrors sl p g _ hvg with he | he
        · injection he with e1 e2 e3
          have hgm : g.1 ∈ tl.map Prod.fst := List.mem_map_of_mem Prod.fst hg
          rw [← e3] at hgm
          exact hni hgm
        · cases he
      rw [h1, h2]
    · have hne : f.1 ≠ fn := by
        intro hf
        have hmm : fn ∈ tl.map Prod.fst := by
          simpa using List.mem_map_of_mem Prod.fst htl
        rw [← hf] at hmm
        exact hni hmm
      have h1 : (commandFileErrors sl p f).count
          (Violation.missingFrontmatter p "commands" fn) = 0 := by
        rw [List.count_eq_zero]
        intro hvf
        rcases mem_commandFileErrors sl p f _ hvf with he | he
        · injection he with e1 e2 e3
          exact hne e3.symm
        · cases he
      rw [h1, ih hnd2 htl]

theorem field_not_mem_commandFiles (sl : String → Yaml) (p fn content : String)
    (l : List (String × String)) (hnd : (l.map Prod.fst).Nodup)
    (hmem : (fn, content) ∈ l)
    (hparse : parse_frontmatter sl content = none) :
    Violation.frontmatterMissingField p "commands" fn "description" ∉
      l.flatMap (commandFileErrors sl p) := by
  intro hmemf
  rcases List.mem_flatMap.mp hmemf with ⟨g, hg, hvg⟩
  rcases mem_commandFileErrors sl p g _ hvg with he | he
  · cases he
  · injection he with e1 e2 e3 e4
    have hgf : g = (fn, content) :=
      eq_of_fst_eq_of_nodup l hnd g (fn, content) hg hmem e3.symm
    rw [hgf] at hvg
    simp only [commandFileErrors, hparse, List.mem_singleton] at hvg
    cases hvg

theorem mem_sortByName {α : Type} (l : List (String × α)) (x : String × α) :
    x ∈ sortByName l ↔ x ∈ l :=
  List.mem_insertionSort _

theorem nodup_fst_sortByName {α : Type} (l : List (String × α))
    (h : (l.map Prod.fst).Nodup) : ((sortByName l).map Prod.fst).Nodup := by
  have hp : List.Perm (sortByName l) l := List.perm_insertionSort _ l
  exact ((hp.map Prod.fst).nodup_iff).mpr h

/-- The two violation shapes the commands block can attach to one file. -/
def isCommandsViolation (p fn : String) (v : Violation) : Prop :=
  v = Violation.missingFrontmatter p "commands" fn ∨
  v = Violation.frontmatterMissingField p "commands" fn "description"

theorem cmd_not_mem_pluginJsonBlock (p fn n : String) (file : Option (Option Json))
    (v : Violation) (hv : isCommandsViolation p fn v) : v ∉ pluginJsonBlock n file := by
  intro hm
  rcases hv with rfl | rfl <;>
  · unfold pluginJsonBlock at hm
    rcases file with _ | _ | j
    · simp at hm
    · simp at hm
    · revert hm
      cases h : parsePluginJson j with
      | none => simp [h]
      | some pj =>
        simp only [h]
        split <;> simp

theorem cmd_not_mem_componentBlock (p fn n : String) (d : PluginDirM)
    (v : Violation) (hv : isCommandsViolation p fn v) : v ∉ componentBlock n d := by
  intro hm
  rcases hv with rfl | rfl <;>
  · unfold componentBlock at hm
    revert hm
    split <;> simp

theorem cmd_not_mem_agents (sl : String → Yaml) (p fn p2 : String)
    (files : List (String × String)) (v : Violation)
    (hv : isCommandsViolation p fn v) : v ∉ _validate_agents_dir sl p2 files := by
  intro hm
  simp only [_validate_agents_dir, List.mem_flatMap] at hm
  obtain ⟨f, hf, hvf⟩ := hm
  rcases hv with rfl | rfl <;>
  · revert hvf
    cases h : parse_frontmatter sl f.2 <;> simp [h]

theorem cmd_not_mem_skills (sl : String → Yaml) (p fn p2 : String)
    (sds : List (String × Option String)) (v : Violation)
    (hv : isCommandsViolation p fn v) : v ∉ _validate_skills_dir sl p2 sds := by
  intro hm
  simp only [_validate_skills_dir, List.mem_flatMap] at hm
  obtain ⟨f, hf, hvf⟩ := hm
  rcases hv with rfl | rfl <;>
  · revert hvf
    rcases f with ⟨sn, _ | content⟩
    · simp
    · cases h : parse_frontmatter sl content <;> simp [h]

theorem cmd_not_mem_mcp (p fn p2 : String) (parsed : Option Json) (v : Violation)
    (hv : isCommandsViolation p fn v) : v ∉ _validate_mcp_json p2 parsed := by
  intro hm
  rcases hv with rfl | rfl <;>
  · unfold _validate_mcp_json at hm
    rcases parsed with _ | j
    · simp at hm
    · cases j <;> simp at hm

theorem cmd_not_mem_lsp (p fn p2 : String) (parsed : Option Json) (v : Violation)
    (hv : isCommandsViolation p fn v) : v ∉ _validate_lsp_json p2 parsed := by
  intro hm
  rcases hv with rfl | rfl <;>
  · unfold _validate_lsp_json at hm
    rcases parsed with _ | j
    · simp at hm
    · cases j <;> simp at hm
      rcases hm with ⟨a, b, hab, hv2⟩
      revert hv2
      cases b <;> simp

theorem count_validate_eq_commands (safeLoad : String → Yaml) (d : PluginDirM)
    (files : List (String × String)) (fn : String) (v : Violation)
    (hc : d.commands = some files) (hv : isCommandsViolation d.dirName fn v) :
    (validate_plugin_dir safeLoad d).count v =
      (validateCommandsBlock safeLoad d.dirName files).count v := by
  have h1 : (pluginJsonBlock d.dirName d.pluginJson).count v = 0 :=
    List.count_eq_zero.mpr (cmd_not_mem_pluginJsonBlock d.dirName fn d.dirName d.pluginJson v hv)
  have h2 : (if d.hasReadme then ([] : List Violation)
      else [Violation.missingReadme d.dirName]).count v = 0 := by
    rcases hv with rfl | rfl <;> (split <;> simp)
  have h3 : (componentBlock d.dirName d).count v = 0 :=
    List.count_eq_zero.mpr (cmd_not_mem_componentBlock d.dirName fn d.dirName d v hv)
  have h5 : ((match d.agents with
      | none => ([] : List Violation)
      | some ag => _validate_agents_dir safeLoad d.dirName ag)).count v = 0 := by
    cases d.agents with
    | none => simp
    | some ag =>
      exact List.count_eq_zero.mpr (cmd_not_mem_agents safeLoad d.dirName fn d.dirName ag v hv)
  have h6 : ((match d.skills with
      | none => ([] : List Violation)
      | some sds => _validate_skills_dir safeLoad d.dirName sds)).count v = 0 := by
    cases d.skills with
    | none => simp
    | some sds =>
      exact List.count_eq_zero.mpr (cmd_not_mem_skills safeLoad d.dirName fn d.dirName sds v hv)
  have h7 : ((match d.hooks with
      | none => ([] : List Violation)
      | some b => if b then [] else [Violation.hooksJsonMissing d.dirName])).count v = 0 := by
    rcases hv with rfl | rfl <;>
    · cases d.hooks with
      | none => simp
      | some b => cases b <;> simp
  have h8 : ((match d.mcpJson with
      | none => ([] : List Violation)
      | some parsed => _validate_mcp_json d.dirName parsed)).count v = 0 := by
    cases d.mcpJson with
    | none => simp
    | some parsed =>
      exact List.count_eq_zero.mpr (cmd_not_mem_mcp d.dirName fn d.dirName parsed v hv)
  have h9 : ((match d.lspJson with
      | none => ([] : List Violation)
      | some parsed => _validate_lsp_json d.dirName parsed)).count v = 0 := by
    cases d.lspJson with
    | none => simp
    | some parsed =>
      exact List.count_eq_zero.mpr (cmd_not_mem_lsp d.dirName fn d.dirName parsed v hv)
  unfold validate_plugin_dir
  simp only [hc, List.count_append, h1, h2, h3, h5, h6, h7, h8, h9]
  omega

/-! ## Helper lemmas: the sync write -/

theorem applySync_plugins (m : MarketplaceManifest) (getPJ : String → PluginJson)
    (additions removals : List String)
    (hname : ∀ n ∈ additions, (getPJ n).name = n)
    (hdisj : ∀ n ∈ additions, n ∉ removals) :
    (applySync m getPJ additions removals).plugins =
      m.plugins.filter (fun e => !removals.contains e.name) ++
      additions.map (fun n => newEntryFor m.owner n (getPJ n)) := by
  unfold applySync
  simp only [List.filter_append]
  congr 1
  rw [List.filter_eq_self]
  intro e he
  rcases List.mem_map.mp he with ⟨n, hn, rfl⟩
  have h1 : (newEntryFor m.owner n (getPJ n)).name = (getPJ n).name := rfl
  rw [h1, hname n hn]
  simpa using hdisj n hn

theorem applySync_names (m : MarketplaceManifest) (getPJ : String → PluginJson)
    (additions removals : List String)
    (hname : ∀ n ∈ additions, (getPJ n).name = n)
    (hdisj : ∀ n ∈ additions, n ∉ removals) (x : String) :
    x ∈ (applySync m getPJ additions removals).plugins.map (fun e => e.name) ↔
      ((x ∈ m.plugins.map (fun e => e.name) ∨ x ∈ additions) ∧ x ∉ removals) := by
  rw [applySync_plugins m getPJ additions removals hname hdisj]
  rw [List.map_append, List.mem_append]
  have hadd : (additions.map (fun n => newEntryFor m.owner n (getPJ n))).map
      (fun e => e.name) = additions := by
    rw [List.map_map]
    have hcg : additions.map ((fun e : PluginEntry => e.name) ∘
        (fun n => newEntryFor m.owner n (getPJ n))) = additions.map id :=
      List.map_congr_left (fun n hn => hname n hn)
    simpa using hcg
  rw [hadd]
  constructor
  · rintro (hl | hr)
    · rcases List.mem_map.mp hl with ⟨e, hef, rfl⟩
      rcases List.mem_filter.mp hef with ⟨hem, hpred⟩
      refine ⟨Or.inl (List.mem_map_of_mem _ hem), ?_⟩
      simpa using hpred
    · exact ⟨Or.inr hr, hdisj x hr⟩
  · rintro ⟨hl | hr, hnr⟩
    · left
      rcases List.mem_map.mp hl with ⟨e, hem, rfl⟩
      refine List.mem_map_of_mem _ (List.mem_filter.mpr ⟨hem, ?_⟩)
      simpa using hnr
    · exact Or.inr hr

theorem filterMap_ite {α β : Type} (p : α → Bool) (g : α → β) (l : List α) :
    l.filterMap (fun a => if p a then none else some (g a)) =
      (l.filter (fun a => !p a)).map g := by
  induction l with
  | nil => rfl
  | cons h t ih =>
    by_cases hp : p h
    · simp [List.filterMap_cons, List.filter_cons, hp, ih]
    · simp [List.filterMap_cons, List.filter_cons, hp, ih]

/-! ## Sample values used by witnesses -/

/-- A small concrete manifest with no plugin entries. -/
def sampleManifest : MarketplaceManifest :=
  { name := "m", description := "d", metadata := { description := "md" },
    owner := { name := "o", email := none, url := none }, plugins := [] }

/-- A package-descriptor table whose descriptor names match the directory
names and declare no version and no author. -/
def samplePJ : String → PluginJson := fun n =>
  { name := n, description := "sample", author := none, version := none,
    homepage := none, repository := none, license := none, keywords := none }

/-- A plugin directory whose one command document has no frontmatter. -/
def sampleDir : PluginDirM :=
  { dirName := "p"
    pluginJson := some (some (Json.obj [("name", Json.str "p"),
      ("description", Json.str "x")]))
    hasReadme := true
    commands := some [("a.md", "no frontmatter")]
    agents := none, skills := none, hooks := none,
    mcpJson := none, lspJson := none }

/-- A serialized manifest object lacking the `metadata` block but supplying
`name`, `description`, `owner` and `plugins`. -/
def manifestJsonNoMetadata : Json :=
  Json.obj [("name", Json.str "m"), ("description", Json.str "d"),
            ("owner", Json.obj [("name", Json.str "o")]),
            ("plugins", Json.arr [])]

/-- Behaviour of `parse_frontmatter` once both delimiters are present: the
result depends only on what `yaml.safe_load` returns for the region. -/
theorem frontmatterRegion_spec (text s : String)
    (hr : frontmatterRegion text = some s) (yl : String → Yaml) :
    parse_frontmatter yl text =
      match yl s with
      | Yaml.map entries => some entries
      | _ => none := by
  unfold frontmatterRegion at hr
  by_cases hp : THREE_DASHES.isPrefixOf text.toList = true
  · rw [if_neg (by rw [hp]; simp)] at hr
    cases hf : findFrom text.toList THREE_DASHES 3 with
    | none => rw [hf] at hr; cases hr
    | some e =>
      rw [hf, Option.map_some'] at hr
      injection hr with hr
      unfold parse_frontmatter
      rw [if_neg (by rw [hp]; simp), hf]
      show (match yl (String.mk (pyStrip (List.take (e - 3) (List.drop 3 text.toList)))) with
            | Yaml.map entries => some entries
            | _ => none) =
          match yl s with
          | Yaml.map entries => some entries
          | _ => none
      rw [hr]
  · rw [if_pos (by rw [Bool.eq_false_iff.mpr hp]; simp)] at hr
    cases hr

/-! ## The claims -/

/-- C1: the name policy checker evaluates its checks in the fixed priority
order (reserved-name membership, then the `anthropic`, `official` and
`claude`-with-plugin-word substring checks) and stops at the first match, so
it returns at most one violation; the exactly-reserved
`claude-plugins-official` yields exactly the reserved-name violation and no
impersonation violation, and `ai-workflow-plugins` yields no violation. -/
theorem name_policy_first_match_only :
    (∀ name : String, (validate_marketplace_name name).length ≤ 1)
    ∧ (∀ name : String, RESERVED_MARKETPLACE_NAMES.contains name = true →
        validate_marketplace_name name = [Violation.reservedName name])
    ∧ (∀ name : String, RESERVED_MARKETPLACE_NAMES.contains name = false →
        strContains name "anthropic" = true →
        validate_marketplace_name name = [Violation.impersonation name "anthropic" none])
    ∧ (∀ name : String, RESERVED_MARKETPLACE_NAMES.contains name = false →
        strContains name "anthropic" = false →
        strContains name "official" = true →
        validate_marketplace_name name = [Violation.impersonation name "official" none])
    ∧ (∀ name : String, RESERVED_MARKETPLACE_NAMES.contains name = false →
        strContains name "anthropic" = false →
        strContains name "official" = false →
        strContains name "claude" = true →
        validate_marketplace_name name =
          match _PLUGIN_RELATED_WORDS.find? (fun w => strContains name w) with
          | some w => [Violation.impersonation name "claude" (some w)]
          | none => [])
    ∧ validate_marketplace_name "claude-plugins-official"
        = [Violation.reservedName "claude-plugins-official"]
    ∧ validate_marketplace_name "ai-workflow-plugins" = [] :=
  ⟨vmn_len, vmn_reserved, vmn_anthropic, vmn_official, vmn_claude,
   by decide, by decide⟩

/-- Witness for C1: the third check applied to a concrete name. -/
theorem name_policy_first_match_only_witness :
    validate_marketplace_name "anthropic-tools-v2"
      = [Violation.impersonation "anthropic-tools-v2" "anthropic" none] :=
  name_policy_first_match_only.2.2.1 "anthropic-tools-v2" (by decide) (by decide)

/-- C2: the sync diff is the symmetric difference of the two name sets, each
side sorted; on manifest names A,B and discovered names B,C it yields
additions C and removals A; it is a pure function of its inputs; and both
sides empty is equivalent to the two name sets being equal. -/
theorem sync_diff_symmetric_difference :
    (∀ m d : List String, ∀ n : String,
        (n ∈ (sync_diff m d).1 ↔ n ∈ d ∧ n ∉ m) ∧
        (n ∈ (sync_diff m d).2 ↔ n ∈ m ∧ n ∉ d))
    ∧ (∀ m d : List String, (sync_diff m d).1.Sorted (fun a b => a ≤ b) ∧
        (sync_diff m d).2.Sorted (fun a b => a ≤ b))
    ∧ sync_diff ["A", "B"] ["B", "C"] = (["C"], ["A"])
    ∧ (∀ m d : List String, sync_diff m d = sync_diff m d)
    ∧ (∀ m d : List String,
        ((sync_diff m d).1 = [] ∧ (sync_diff m d).2 = []) ↔ (∀ n, n ∈ m ↔ n ∈ d)) :=
  ⟨fun m d n => ⟨mem_sync_diff_fst m d n, mem_sync_diff_snd m d n⟩,
   fun m d => ⟨sortStrings_sorted _, sortStrings_sorted _⟩,
   by decide,
   fun _ _ => rfl,
   sync_diff_empty_iff⟩

/-- C3: applying the sync write and re-parsing the stamped serialization
returns the written manifest unchanged; the resulting plugin-name set is the
prior set plus the additions minus the removals, with untouched entries kept
in order and the synthesized entries appended; each synthesized entry
defaults version to `1.0.0` when the descriptor declares none, author to the
manifest owner when absent, category to `development`, and source to
`./plugins/<name>`; and the schema identifier is stamped on every write.
The two hypotheses state what the data model guarantees for a diff result:
each addition's descriptor declares the directory's name, and no addition is
also a removal. -/
theorem sync_write_roundtrip (m : MarketplaceManifest) (getPJ : String → PluginJson)
    (additions removals : List String)
    (hname : ∀ n ∈ additions, (getPJ n).name = n)
    (hdisj : ∀ n ∈ additions, n ∉ removals) :
    parseMarketplaceManifest (stampSchema (dumpMarketplaceManifest
        (applySync m getPJ additions removals)))
      = some (applySync m getPJ additions removals)
    ∧ (∀ x : String,
        x ∈ (applySync m getPJ additions removals).plugins.map (fun e => e.name) ↔
        ((x ∈ m.plugins.map (fun e => e.name) ∨ x ∈ additions) ∧ x ∉ removals))
    ∧ (applySync m getPJ additions removals).plugins =
        m.plugins.filter (fun e => !removals.contains e.name) ++
        additions.map (fun n => newEntryFor m.owner n (getPJ n))
    ∧ (∀ (owner : Author) (n : String) (pj : PluginJson),
        pj.version = none → (newEntryFor owner n pj).version = "1.0.0")
    ∧ (∀ (owner : Author) (n : String) (pj : PluginJson),
        pj.author = none → (newEntryFor owner n pj).author = owner)
    ∧ (∀ (owner : Author) (n : String) (pj : PluginJson),
        (newEntryFor owner n pj).category = Category.development)
    ∧ (∀ (owner : Author) (n : String) (pj : PluginJson),
        (newEntryFor owner n pj).source = "./plugins/" ++ n)
    ∧ (∀ mm : MarketplaceManifest,
        jsonLookup (stampSchema (dumpMarketplaceManifest mm)) "$schema"
          = some (Json.str SCHEMA_URL)) :=
  ⟨parseManifest_stamp_dump _,
   applySync_names m getPJ additions removals hname hdisj,
   applySync_plugins m getPJ additions removals hname hdisj,
   fun owner n pj h => by simp [newEntryFor, h, pyOrStr],
   fun owner n pj h => by simp [newEntryFor, h],
   fun owner n pj => rfl,
   fun owner n pj => rfl,
   jsonLookup_stamp_dump⟩

/-- Witness for C3: one addition and one removal on a concrete manifest. -/
theorem sync_write_roundtrip_witness :
    parseMarketplaceManifest (stampSchema (dumpMarketplaceManifest
        (applySync sampleManifest samplePJ ["b"] ["c"])))
      = some (applySync sampleManifest samplePJ ["b"] ["c"])
    ∧ (∀ x : String,
        x ∈ (applySync sampleManifest samplePJ ["b"] ["c"]).plugins.map (fun e => e.name) ↔
        ((x ∈ sampleManifest.plugins.map (fun e => e.name) ∨ x ∈ ["b"]) ∧ x ∉ ["c"]))
    ∧ (applySync sampleManifest samplePJ ["b"] ["c"]).plugins =
        sampleManifest.plugins.filter (fun e => !(["c"] : List String).contains e.name) ++
        (["b"] : List String).map (fun n => newEntryFor sampleManifest.owner n (samplePJ n))
    ∧ (∀ (owner : Author) (n : String) (pj : PluginJson),
        pj.version = none → (newEntryFor owner n pj).version = "1.0.0")
    ∧ (∀ (owner : Author) (n : String) (pj : PluginJson),
        pj.author = none → (newEntryFor owner n pj).author = owner)
    ∧ (∀ (owner : Author) (n : String) (pj : PluginJson),
        (newEntryFor owner n pj).category = Category.development)
    ∧ (∀ (owner : Author) (n : String) (pj : PluginJson),
        (newEntryFor owner n pj).source = "./plugins/" ++ n)
    ∧ (∀ mm : MarketplaceManifest,
        jsonLookup (stampSchema (dumpMarketplaceManifest mm)) "$schema"
          = some (Json.str SCHEMA_URL)) :=
  sync_write_roundtrip sampleManifest samplePJ ["b"] ["c"]
    (fun n _ => rfl) (by decide)

/-- C4: frontmatter extraction returns `none` (no frontmatter, not an error)
when the text does not begin with the three-dash delimiter, when no closing
delimiter occurs at or after index 3, or when the region parses to a
non-mapping value; when it parses to a mapping, that mapping is returned
unmodified, with no field validation. -/
theorem parse_frontmatter_absent_or_mapping :
    (∀ (yl : String → Yaml) (text : String),
        THREE_DASHES.isPrefixOf text.toList = false →
        parse_frontmatter yl text = none)
    ∧ (∀ (yl : String → Yaml) (text : String),
        findFrom text.toList THREE_DASHES 3 = none →
        parse_frontmatter yl text = none)
    ∧ (∀ (yl : String → Yaml) (text s : String) (entries : List (String × Yaml)),
        frontmatterRegion text = some s → yl s = Yaml.map entries →
        parse_frontmatter yl text = some entries)
    ∧ (∀ (yl : String → Yaml) (text s : String),
        frontmatterRegion text = some s → (yl s).isMap = false →
        parse_frontmatter yl text = none) := by
  refine ⟨?_, ?_, ?_, ?_⟩
  · intro yl text h
    unfold parse_frontmatter
    rw [if_pos (by rw [h]; simp)]
  · intro yl text h
    unfold parse_frontmatter
    by_cases hp : THREE_DASHES.isPrefixOf text.toList = true
    · rw [if_neg (by rw [hp]; simp), h]
    · rw [if_pos (by rw [Bool.eq_false_iff.mpr hp]; simp)]
  · intro yl text s entries hr hy
    rw [frontmatterRegion_spec text s hr yl, hy]
  · intro yl text s hr hy
    rw [frontmatterRegion_spec text s hr yl]
    cases hc : yl s with
    | map entries => rw [hc] at hy; cases hy
    | _ => rfl

/-- Witness for C4: a concrete document whose region loads as a mapping. -/
theorem parse_frontmatter_absent_or_mapping_witness :
    parse_frontmatter (fun _ => Yaml.map [("description", Yaml.str "hello")])
        "---\nk: v\n---\nbody"
      = some [("description", Yaml.str "hello")] :=
  parse_frontmatter_absent_or_mapping.2.2.1
    (fun _ => Yaml.map [("description", Yaml.str "hello")])
    "---\nk: v\n---\nbody" "k: v" [("description", Yaml.str "hello")] rfl rfl

/-- C5: for a document of the commands directory with no frontmatter, the
structural validator reports exactly one missing-frontmatter violation for
it, and no missing-description violation for the same document. -/
theorem commands_missing_frontmatter_exclusive (safeLoad : String → Yaml)
    (d : PluginDirM) (files : List (String × String)) (fn content : String)
    (hc : d.commands = some files)
    (hnd : (files.map Prod.fst).Nodup)
    (hmem : (fn, content) ∈ files)
    (hparse : parse_frontmatter safeLoad content = none) :
    (validate_plugin_dir safeLoad d).count
        (Violation.missingFrontmatter d.dirName "commands" fn) = 1 ∧
    Violation.frontmatterMissingField d.dirName "commands" fn "description" ∉
        validate_plugin_dir safeLoad d := by
  have hv1 : isCommandsViolation d.dirName fn
      (Violation.missingFrontmatter d.dirName "commands" fn) := Or.inl rfl
  have hv2 : isCommandsViolation d.dirName fn
      (Violation.frontmatterMissingField d.dirName "commands" fn "description") :=
    Or.inr rfl
  have hkey := count_validate_eq_commands safeLoad d files fn _ hc hv1
  have hkey2 := count_validate_eq_commands safeLoad d files fn _ hc hv2
  constructor
  · rw [hkey]
    simp only [validateCommandsBlock]
    rw [List.count_append]
    have h0 : (if (sortByName files).isEmpty then [Violation.noMdFilesInCommands d.dirName]
        else ([] : List Violation)).count
        (Violation.missingFrontmatter d.dirName "commands" fn) = 0 := by
      split <;> simp
    rw [h0, count_commandFiles safeLoad d.dirName fn content _
      (nodup_fst_sortByName files hnd) ((mem_sortByName files _).mpr hmem) hparse]
  · have hz : (validate_plugin_dir safeLoad d).count
        (Violation.frontmatterMissingField d.dirName "commands" fn "description") = 0 := by
      rw [hkey2]
      simp only [validateCommandsBlock]
      rw [List.count_append]
      have h0 : (if (sortByName files).isEmpty then [Violation.noMdFilesInCommands d.dirName]
          else ([] : List Violation)).count
          (Violation.frontmatterMissingField d.dirName "commands" fn "description") = 0 := by
        split <;> simp
      have h1 : ((sortByName files).flatMap (commandFileErrors safeLoad d.dirName)).count
          (Violation.frontmatterMissingField d.dirName "commands" fn "description") = 0 :=
        List.count_eq_zero.mpr (field_not_mem_commandFiles safeLoad d.dirName fn content _
          (nodup_fst_sortByName files hnd) ((mem_sortByName files _).mpr hmem) hparse)
      rw [h0, h1]
    exact List.count_eq_zero.mp hz

/-- Witness for C5: a concrete directory with one frontmatter-less command
document. -/
theorem commands_missing_frontmatter_exclusive_witness :
    (validate_plugin_dir (fun _ => Yaml.null) sampleDir).count
        (Violation.missingFrontmatter sampleDir.dirName "commands" "a.md") = 1 ∧
    Violation.frontmatterMissingField sampleDir.dirName "commands" "a.md" "description" ∉
        validate_plugin_dir (fun _ => Yaml.null) sampleDir :=
  commands_missing_frontmatter_exclusive (fun _ => Yaml.null) sampleDir
    [("a.md", "no frontmatter")] "a.md" "no frontmatter" rfl (by decide)
    (by decide) rfl

/-- C6 counterexample: with the manifest file missing, `lint` still performs
the external `claude plugin validate` check, so the reported errors are not
just the recorded manifest-load error — refuting that the lint pass performs
no further checks of any kind after a manifest-load failure. -/
theorem lint_manifest_failure_still_runs_cli :
    lint none (fun _ => true) (fun _ => Yaml.null) []
        ([Violation.cliFinding "finding"], [])
      = some ([Violation.manifestNotFound, Violation.cliFinding "finding"], [])
    ∧ ([Violation.manifestNotFound, Violation.cliFinding "finding"] : List Violation)
        ≠ [Violation.manifestNotFound] :=
  ⟨rfl, by decide⟩

/-- C6 amended: a missing manifest file makes `lint` record the
manifest-load error and skip every manifest-dependent check, but the
external validator check still runs and contributes its findings; a manifest
file that exists but is invalid (bad JSON text or schema violation) crashes
the command instead of being recorded. -/
theorem lint_manifest_failure_behavior :
    (∀ (se : String → Bool) (sl : String → Yaml) (disc : List PluginDirM)
        (cli : List Violation × List Violation),
        lint none se sl disc cli = some (Violation.manifestNotFound :: cli.1, cli.2))
    ∧ (∀ (se : String → Bool) (sl : String → Yaml) (disc : List PluginDirM)
        (cli : List Violation × List Violation) (j : Json),
        parseMarketplaceManifest j = none →
        lint (some (some j)) se sl disc cli = none)
    ∧ (∀ (se : String → Bool) (sl : String → Yaml) (disc : List PluginDirM)
        (cli : List Violation × List Violation),
        lint (some none) se sl disc cli = none) := by
  refine ⟨?_, ?_, ?_⟩
  · intro se sl disc cli
    rfl
  · intro se sl disc cli j h
    simp [lint, h]
  · intro se sl disc cli
    rfl

/-- Witness for C6: a concrete schema-invalid manifest file crashes lint. -/
theorem lint_manifest_failure_behavior_witness :
    lint (some (some Json.null)) (fun _ => true) (fun _ => Yaml.null) [] ([], [])
      = none :=
  lint_manifest_failure_behavior.2.1 (fun _ => true) (fun _ => Yaml.null) [] ([], [])
    Json.null rfl

/-- C7 counterexample: an object supplying `name`, `description`, `owner`
and `plugins` but no `metadata` block is rejected by manifest validation,
refuting that such an object is accepted. -/
theorem manifest_without_metadata_rejected :
    parseMarketplaceManifest manifestJsonNoMetadata = none := rfl

/-- C7 amended: the `metadata` block (with its `description`) is a required
field of the manifest schema: every object without a `metadata` key is
rejected, and every well-typed object with all five fields is accepted. -/
theorem manifest_metadata_required :
    (∀ kvs : List (String × Json), kvs.lookup "metadata" = none →
        parseMarketplaceManifest (Json.obj kvs) = none)
    ∧ (∀ m : MarketplaceManifest,
        parseMarketplaceManifest (dumpMarketplaceManifest m) = some m) := by
  constructor
  · intro kvs h
    unfold parseMarketplaceManifest
    cases h1 : parseStrField kvs "name" with
    | none => simp [h1]
    | some nm =>
      cases h2 : parseStrField kvs "description" with
      | none => simp [h1, h2]
      | some ds => simp [h1, h2, h]
  · exact parseManifest_dump

/-- Witness for C7: a concrete object without a `metadata` key. -/
theorem manifest_metadata_required_witness :
    parseMarketplaceManifest (Json.obj [("name", Json.str "m")]) = none :=
  manifest_metadata_required.1 [("name", Json.str "m")] rfl

/-- C8: `.mcp.json` validation reports a single violation when the top level
is not a mapping, and otherwise one violation per key whose value is not a
mapping; the content with key `srv` mapped to a string yields exactly one
violation naming `srv`. -/
theorem mcp_json_violations :
    (∀ p : String, ∀ j : Json, j.isObj = false →
        _validate_mcp_json p (some j) = [Violation.mcpTopLevelNotObject p])
    ∧ (∀ p : String, ∀ kvs : List (String × Json),
        _validate_mcp_json p (some (Json.obj kvs)) =
          (kvs.filter (fun kv => !kv.2.isObj)).map
            (fun kv => Violation.mcpServerNotObject p kv.1))
    ∧ _validate_mcp_json "test" (some (Json.obj [("srv", Json.str "not-an-object")]))
        = [Violation.mcpServerNotObject "test" "srv"] := by
  refine ⟨?_, ?_, rfl⟩
  · intro p j hj
    cases j <;> first | rfl | cases hj
  · intro p kvs
    exact filterMap_ite (fun kv => kv.2.isObj) _ kvs

/-- Witness for C8: a concrete non-mapping top level. -/
theorem mcp_json_violations_witness :
    _validate_mcp_json "t" (some (Json.arr []))
      = [Violation.mcpTopLevelNotObject "t"] :=
  mcp_json_violations.1 "t" (Json.arr []) rfl

/-- C9: in check mode with drift, `sync` fails before the write step, so the
manifest file is never written in check mode, whatever the write flag. -/
theorem sync_check_mode_never_writes :
    (∀ (write : Bool) (m : MarketplaceManifest) (disc : List String)
        (getPJ : String → PluginJson),
        ((sync_diff (m.plugins.map (fun e => e.name)) disc).1.isEmpty &&
         (sync_diff (m.plugins.map (fun e => e.name)) disc).2.isEmpty) = false →
        sync write true m disc getPJ =
          SyncOutcome.checkFailed (sync_diff (m.plugins.map (fun e => e.name)) disc).1
            (sync_diff (m.plugins.map (fun e => e.name)) disc).2)
    ∧ (∀ (write : Bool) (m : MarketplaceManifest) (disc : List String)
        (getPJ : String → PluginJson) (m2 : MarketplaceManifest),
        sync write true m disc getPJ ≠ SyncOutcome.wrote m2) := by
  constructor
  · intro write m disc getPJ hdrift
    unfold sync
    simp [hdrift]
  · intro write m disc getPJ m2
    unfold sync
    cases h : ((sync_diff (m.plugins.map (fun e => e.name)) disc).1.isEmpty &&
        (sync_diff (m.plugins.map (fun e => e.name)) disc).2.isEmpty) <;> simp [h]

/-- Witness for C9: an undrifted manifest against one discovered plugin. -/
theorem sync_check_mode_never_writes_witness :
    sync true true sampleManifest ["extra"] samplePJ =
      SyncOutcome.checkFailed
        (sync_diff (sampleManifest.plugins.map (fun e => e.name)) ["extra"]).1
        (sync_diff (sampleManifest.plugins.map (fun e => e.name)) ["extra"]).2 :=
  sync_check_mode_never_writes.1 true sampleManifest ["extra"] samplePJ (by decide)

/-- C10: plugin discovery returns the empty list when the plugins root does
not exist, and a sorted list for every filesystem state. -/
theorem discover_plugins_total_and_sorted :
    discover_plugins none = []
    ∧ (∀ fs : Option (List DirEntry),
        (discover_plugins fs).Sorted (fun a b => a ≤ b)) := by
  refine ⟨rfl, ?_⟩
  intro fs
  cases fs with
  | none => simp [discover_plugins]
  | some entries => exact sortStrings_sorted _

end Marketplace
